import Mathlib

/-!
# foreman_ygg_worker: the script runner (`runner.go`)

A shallow embedding of `dispatch`, `startScript`, `outputCollector` and `cancel`.

The functions of `runner.go` are effectful: they create files, start a process, read
pipes, send on a channel, write the job registry and log.  The embedding makes the
outcome of every external operation an explicit input (`World`) and makes every effect
an explicit output: each function returns the list of effects it performed, in program
order (`Event`), how control left it (`Outcome`), and the job registry it leaves.

The two collector goroutines run concurrently; their effects are merged by an explicit
schedule (`World.sched`), so a statement proved for every `World` holds for every
interleaving of the two collectors.
-/

set_option autoImplicit false

namespace Runner

/-! ## Data -/

/-- Bytes of a script, of a pipe read, of an output message. Go converts `[]byte` to
`string` without changing the bytes, so both are byte lists here. -/
abbrev Bytes := List UInt8

/-- Severity of a log line (`log.Tracef` ... `log.Fatal`). -/
inductive Level
  | trace | debug | info | warn | error | fatal
  deriving DecidableEq, Repr

/-- The log lines of `runner.go`, one constructor per call site. -/
inductive Msg
  | noEventAssumeStart     -- line 19
  | unknownEvent           -- line 29
  | noJobUUIDStart         -- line 36
  | runningScript          -- line 40
  | createTmpFailed        -- line 44
  | writeTmpFailed         -- line 50
  | scriptWritten          -- line 52
  | closeFailed            -- line 56
  | chmodFailed            -- line 61
  | stdoutPipeFailed       -- line 69
  | stderrPipeFailed       -- line 75
  | cannotRunScript        -- line 80
  | startedProcess         -- line 83
  | scriptRunFailed        -- line 108
  | streamMessage          -- line 122
  | cannotRead             -- line 127
  | noJobUUIDCancel        -- line 139
  | unknownJob             -- line 145
  | cancelling             -- line 149
  | sigtermFailed          -- line 151
  deriving DecidableEq, Repr

/-- Modelled from the spec: the type `V1Update` is declared outside `runner.go`. An
update is one of `Output{stream, text}` or `Exit{code}`. -/
inductive V1Update
  | output (stream : String) (content : Bytes)
  | exit (code : Int)
  deriving DecidableEq, Repr

/-- Modelled from the spec: `NewOutputUpdate` is declared outside `runner.go`; it builds
the `Output{stream, text}` update. -/
def NewOutputUpdate (stdtype : String) (msg : Bytes) : V1Update := V1Update.output stdtype msg

/-- Modelled from the spec: `NewExitUpdate` is declared outside `runner.go`; it builds
the `Exit{code}` update. -/
def NewExitUpdate (code : Int) : V1Update := V1Update.exit code

/-- The request `*pb.Data`: a metadata map, the content payload and a message id. A key
is present in the map when `lookup` finds it. -/
structure Data where
  metadata : List (String × String)
  content : Bytes
  messageId : String

/-- The Go map read `d.GetMetadata()[key]`, as the pair (value, present). -/
def Data.get (d : Data) (key : String) : Option String := d.metadata.lookup key

/-- Modelled from the spec: `jobStorage` is declared outside `runner.go`. It is the
mapping from job identifier to pid, with the atomic operations `Set`, `Get`, `Remove`. -/
structure jobStorage where
  jobs : String → Option Int

/-- Modelled from the spec: `Get` returns the pid registered for the id, if any. -/
def jobStorage.Get (s : jobStorage) (id : String) : Option Int := s.jobs id

/-- Modelled from the spec: `Set` maps the id to the pid, replacing an earlier entry
(last writer wins). -/
def jobStorage.Set (s : jobStorage) (id : String) (pid : Int) : jobStorage :=
  ⟨fun k => if k = id then some pid else s.jobs k⟩

/-- Modelled from the spec: `Remove` deletes the entry of the id. -/
def jobStorage.Remove (s : jobStorage) (id : String) : jobStorage :=
  ⟨fun k => if k = id then none else s.jobs k⟩

/-- The registry with no job. -/
def jobStorage.empty : jobStorage := ⟨fun _ => none⟩

/-- The signals sent by `runner.go`. -/
inductive Signal
  | SIGTERM
  deriving DecidableEq, Repr

/-- One effect performed by the runner. -/
inductive Event
  | log (lvl : Level) (msg : Msg)
  | tempCreated (name : String)             -- `ioutil.TempFile` made the file
  | written (name : String) (n : Nat)       -- `scriptfile.Write` wrote `n` bytes
  | closed (name : String)                  -- `scriptfile.Close` succeeded
  | chmodded (name : String)                -- `os.Chmod(name, 0700)` succeeded
  | started (pid : Int)                     -- `cmd.Start` made the child process
  | regSet (id : String) (pid : Int)        -- `s.Set(id, pid)`
  | send (u : V1Update)                     -- `updates <- u`
  | collectorsDone                          -- `wg.Wait()` returned
  | waited                                  -- `cmd.Wait()` returned
  | chanClosed                              -- `close(updates)`
  | regRemove (id : String)                 -- deferred `s.Remove(id)`
  | fileRemoved (name : String)             -- deferred `os.Remove(name)`
  | kill (pid : Int) (sig : Signal)         -- `syscallKill(pid, sig)`
  deriving DecidableEq, Repr

/-- How control leaves a function.
* `returned`: it returns to its caller, after running its deferred calls;
* `fatal`: `log.Fatal` ended the worker process with `os.Exit(1)`; deferred calls are
  not run;
* `panicked`: a run-time panic (nil pointer dereference);
* `blocked`: it never returns, because a collector never sees the end of its stream. -/
inductive Outcome
  | returned | fatal | panicked | blocked
  deriving DecidableEq, Repr

/-- What a call did: its effects in order, how it ended, and the registry it leaves. -/
structure Result where
  events : List Event
  outcome : Outcome
  storage : jobStorage

/-! ## The outcomes of the external operations -/

/-- The error of a `pipe.Read`: `io.EOF` or another error. -/
inductive ReadErr
  | eof | other
  deriving DecidableEq, Repr

/-- The size of the buffer `make([]byte, 4096)` of `outputCollector`. -/
def bufSize : Nat := 4096

/-- The result `(n, err)` of one `pipe.Read(buf)` on the buffer of `outputCollector`:
`data` is `buf[:n]`, the bytes the read put in the buffer, and `err` is the error, `none`
for `nil`. The field `fits` is the contract of `io.Reader`, `0 <= n <= len(buf)`. -/
structure ReadResult where
  data : Bytes
  err : Option ReadErr
  fits : data.length ≤ bufSize
  deriving DecidableEq, Repr

/-- The count `n` returned by the read. -/
def ReadResult.n (r : ReadResult) : Nat := r.data.length

/-- A `syscall.WaitStatus` (Linux): the raw status word. -/
structure WaitStatus where
  raw : Nat
  deriving DecidableEq, Repr

/-- `WaitStatus.Exited` of Go's `syscall` (Linux): `w & 0x7F == 0`. -/
def WaitStatus.Exited (w : WaitStatus) : Bool := w.raw % 128 == 0

/-- `WaitStatus.ExitStatus` of Go's `syscall` (Linux): `-1` when the process did not
exit, else `(w >> 8) & 0xFF`. -/
def WaitStatus.ExitStatus (w : WaitStatus) : Int :=
  if w.Exited then ((w.raw / 256 % 256 : Nat) : Int) else -1

/-- The result of `cmd.Wait()`: `nil`, an `*exec.ExitError` whose `Sys()` is or is not a
`syscall.WaitStatus`, or another error. -/
inductive WaitResult
  | ok
  | exitError (sys : Option WaitStatus)
  | otherError
  deriving DecidableEq, Repr

/-- What `cmd.Wait()` reports for a process that terminated with exit code `c`
(Go `os/exec` on Linux): `nil` for `0`, else an `ExitError` with wait status `c << 8`. -/
def waitOfExitCode (c : Nat) : WaitResult :=
  if c = 0 then WaitResult.ok else WaitResult.exitError (some ⟨c * 256⟩)

/-- The outcome of every external operation a call of `dispatch` may use. -/
structure World where
  tempFile : Option String        -- `ioutil.TempFile`: the name of the file, `none` on error
  writeN : Nat                    -- `scriptfile.Write`: bytes written
  writeOk : Bool                  -- `scriptfile.Write`: `err == nil`
  closeOk : Bool                  -- `scriptfile.Close`: `err == nil`
  chmodOk : Bool                  -- `os.Chmod`: `err == nil`
  stdoutPipeOk : Bool             -- `cmd.StdoutPipe`: `err == nil`
  stderrPipeOk : Bool             -- `cmd.StderrPipe`: `err == nil`
  start : Option Int              -- `cmd.Start`: the pid of the child, `none` on error
  stdout : List ReadResult        -- the successive reads of the stdout pipe
  stderr : List ReadResult        -- the successive reads of the stderr pipe
  sched : List Bool               -- which collector runs next (`true`: stdout)
  wait : WaitResult               -- `cmd.Wait`
  killOk : Bool                   -- `syscallKill`: `err == nil`

/-! ## `outputCollector` (lines 116-132) -/

/-- What one collector did: its effects in order, and whether its loop ended. The reads
are consumed in order; when they run out before any returns an error, the next
`pipe.Read` never returns and the collector does not finish. -/
structure Collected where
  events : List Event
  finished : Bool
  deriving DecidableEq, Repr

/-- The body of the `for` loop of `outputCollector`, over the successive read results. -/
def outputCollector (stdtype : String) : List ReadResult → Collected
  | [] => ⟨[], false⟩
  | r :: rest =>
    let emitted : List Event :=
      if r.n > 0 then
        [Event.log Level.trace Msg.streamMessage, Event.send (NewOutputUpdate stdtype r.data)]
      else []
    match r.err with
    | some e =>
      ⟨emitted ++ (if e ≠ ReadErr.eof then [Event.log Level.error Msg.cannotRead] else []), true⟩
    | none =>
      let c := outputCollector stdtype rest
      ⟨emitted ++ c.events, c.finished⟩

/-- Merge of the effects of two concurrent tasks: the schedule says which task performs
its next effect; a task with nothing left yields to the other, and when the schedule
runs out the first task runs to its end, then the second. -/
def interleave {α : Type} : List Bool → List α → List α → List α
  | _, [], ys => ys
  | _, xs, [] => xs
  | [], xs, ys => xs ++ ys
  | true :: sch, x :: xs, ys => x :: interleave sch xs ys
  | false :: sch, xs, y :: ys => y :: interleave sch xs ys

/-! ## `startScript` (lines 33-114) -/

/-- Lines 101-112: the effects of handling the result of `cmd.Wait()`. -/
def exitEvents : WaitResult → List Event
  | WaitResult.ok => [Event.send (NewExitUpdate 0)]
  | WaitResult.exitError (some status) => [Event.send (NewExitUpdate status.ExitStatus)]
  | WaitResult.exitError none => []
  | WaitResult.otherError => [Event.log Level.error Msg.scriptRunFailed]

/-- Lines 84-114, once the process has started with pid `pid`: registration, the two
collectors, the wait, the exit update, the close of the channel, and the deferred calls
(`s.Remove(jobUUID)` then `os.Remove(name)`, last deferred first). -/
def runStarted (jobUUID : Option String) (name : String) (pid : Int) (s : jobStorage)
    (w : World) : Result :=
  let reg : List Event := match jobUUID with
    | some id => [Event.regSet id pid]
    | none => []
  let s1 : jobStorage := match jobUUID with
    | some id => s.Set id pid
    | none => s
  let out := outputCollector "stdout" w.stdout
  let err := outputCollector "stderr" w.stderr
  let collected := interleave w.sched out.events err.events
  if out.finished && err.finished then
    let unreg : List Event := match jobUUID with
      | some id => [Event.regRemove id]
      | none => []
    let s2 : jobStorage := match jobUUID with
      | some id => s1.Remove id
      | none => s1
    ⟨reg ++ collected ++ [Event.collectorsDone, Event.waited] ++ exitEvents w.wait
        ++ [Event.chanClosed] ++ unreg ++ [Event.fileRemoved name],
      Outcome.returned, s2⟩
  else
    ⟨reg ++ collected, Outcome.blocked, s1⟩

/-- Lines 54-83, once the temporary file `name` exists and has been written. -/
def launch (jobUUID : Option String) (name : String) (s : jobStorage) (w : World) : Result :=
  if !w.closeOk then
    ⟨[Event.log Level.fatal Msg.closeFailed], Outcome.fatal, s⟩
  else if !w.chmodOk then
    ⟨[Event.closed name, Event.log Level.fatal Msg.chmodFailed], Outcome.fatal, s⟩
  else
    let staged : List Event := [Event.closed name, Event.chmodded name]
    if !w.stdoutPipeOk then
      ⟨staged ++ [Event.log Level.error Msg.stdoutPipeFailed, Event.fileRemoved name],
        Outcome.returned, s⟩
    else if !w.stderrPipeOk then
      ⟨staged ++ [Event.log Level.error Msg.stderrPipeFailed, Event.fileRemoved name],
        Outcome.returned, s⟩
    else
      match w.start with
      | none =>
        ⟨staged ++ [Event.log Level.error Msg.cannotRunScript, Event.fileRemoved name],
          Outcome.returned, s⟩
      | some pid =>
        let r := runStarted jobUUID name pid s w
        ⟨staged ++ [Event.started pid, Event.log Level.info Msg.startedProcess] ++ r.events,
          r.outcome, r.storage⟩

/-- The function `startScript`. When `ioutil.TempFile` fails, `scriptfile` is `nil` and
the argument `scriptfile.Name()` of the `defer` statement of line 46 dereferences it. -/
def startScript (d : Data) (s : jobStorage) (w : World) : Result :=
  let jobUUID := d.get "job_uuid"
  let intro : List Event :=
    (if jobUUID.isNone then [Event.log Level.warn Msg.noJobUUIDStart] else [])
      ++ [Event.log Level.trace Msg.runningScript]
  match w.tempFile with
  | none =>
    ⟨intro ++ [Event.log Level.error Msg.createTmpFailed], Outcome.panicked, s⟩
  | some name =>
    let staging : List Event :=
      [Event.tempCreated name, Event.written name w.writeN]
        ++ (if !w.writeOk then [Event.log Level.error Msg.writeTmpFailed] else [])
        ++ [Event.log Level.debug Msg.scriptWritten]
    let r := launch jobUUID name s w
    ⟨intro ++ staging ++ r.events, r.outcome, r.storage⟩

/-! ## `cancel` (lines 136-153) and `dispatch` (lines 16-31) -/

/-- The function `cancel`. -/
def cancel (d : Data) (s : jobStorage) (w : World) : Result :=
  match d.get "job_uuid" with
  | none => ⟨[Event.log Level.error Msg.noJobUUIDCancel], Outcome.returned, s⟩
  | some jobUUID =>
    match s.Get jobUUID with
    | none => ⟨[Event.log Level.error Msg.unknownJob], Outcome.returned, s⟩
    | some pid =>
      ⟨[Event.log Level.info Msg.cancelling, Event.kill pid Signal.SIGTERM]
          ++ (if !w.killOk then [Event.log Level.error Msg.sigtermFailed] else []),
        Outcome.returned, s⟩

/-- The `switch` of `dispatch`, lines 23-30. -/
def dispatchEvent (event : String) (d : Data) (s : jobStorage) (w : World) : Result :=
  if event = "start" then startScript d s w
  else if event = "cancel" then cancel d s w
  else ⟨[Event.log Level.error Msg.unknownEvent], Outcome.returned, s⟩

/-- The function `dispatch`. -/
def dispatch (d : Data) (s : jobStorage) (w : World) : Result :=
  match d.get "event" with
  | some event => dispatchEvent event d s w
  | none =>
    let r := dispatchEvent "start" d s w
    ⟨Event.log Level.warn Msg.noEventAssumeStart :: r.events, r.outcome, r.storage⟩

/-! ## Observations on effect lists -/

/-- The updates sent on the channel, in order. -/
def updatesOf : List Event → List V1Update
  | [] => []
  | Event.send u :: es => u :: updatesOf es
  | _ :: es => updatesOf es

/-- Whether the effect is an operation on the update channel (a send or the close). -/
def Event.onChannel : Event → Bool
  | Event.send _ => true
  | Event.chanClosed => true
  | _ => false

/-- Whether the effect is an operation on the job registry. -/
def Event.onRegistry : Event → Bool
  | Event.regSet _ _ => true
  | Event.regRemove _ => true
  | _ => false

/-- Whether the effect is a log line or a send of an `Output` update. -/
def Event.isCollectorEvent : Event → Bool
  | Event.log _ _ => true
  | Event.send (V1Update.output _ _) => true
  | _ => false

/-- The bytes carried by an update (none for `Exit`). -/
def V1Update.bytes : V1Update → Bytes
  | V1Update.output _ content => content
  | V1Update.exit _ => []

/-- The effect of one event on the registry. -/
def jobStorage.step (s : jobStorage) : Event → jobStorage
  | Event.regSet id pid => s.Set id pid
  | Event.regRemove id => s.Remove id
  | _ => s

/-- The registry after a list of effects. -/
def jobStorage.replay (s : jobStorage) (es : List Event) : jobStorage := es.foldl jobStorage.step s

/-- The list `zs` is an interleaving of `xs` and `ys`: it holds the elements of both,
each list in its own order. -/
inductive Interleaving {α : Type} : List α → List α → List α → Prop
  | nil : Interleaving [] [] []
  | left (x : α) {xs ys zs : List α} : Interleaving xs ys zs → Interleaving (x :: xs) ys (x :: zs)
  | right (y : α) {xs ys zs : List α} : Interleaving xs ys zs → Interleaving xs (y :: ys) (y :: zs)

/-- Whether the effect is a log line or an operation on the temporary file before the
process starts. -/
def Event.isStaging : Event → Bool
  | Event.log _ _ => true
  | Event.tempCreated _ => true
  | Event.written _ _ => true
  | Event.closed _ => true
  | Event.chmodded _ => true
  | _ => false

/-- Whether the effect is a signal. -/
def Event.isKill : Event → Bool
  | Event.kill _ _ => true
  | _ => false

/-- Whether the effect is an error-level log line. -/
def Event.isErrorLog : Event → Bool
  | Event.log Level.error _ => true
  | _ => false

/-- The effects of the two collectors of a run, merged by the schedule. -/
def collected (w : World) : List Event :=
  interleave w.sched (outputCollector "stdout" w.stdout).events
    (outputCollector "stderr" w.stderr).events

/-- Whether both collectors of a run reach the end of their loop. -/
def bothFinished (w : World) : Bool :=
  (outputCollector "stdout" w.stdout).finished && (outputCollector "stderr" w.stderr).finished

/-- Whether the effect is a log line. -/
def Event.isLog : Event → Bool
  | Event.log _ _ => true
  | _ => false

/-- Whether the effect is a log line or an operation on the temporary file, its removal
included. -/
def Event.isLocal : Event → Bool
  | Event.log _ _ => true
  | Event.tempCreated _ => true
  | Event.written _ _ => true
  | Event.closed _ => true
  | Event.chmodded _ => true
  | Event.fileRemoved _ => true
  | _ => false

/-! ## Concrete requests and worlds -/

/-- The request `{event: start, job_uuid: "abc", return_url: "http://x"}` with content
`echo hi`. -/
def reqStart : Data :=
  ⟨[("event", "start"), ("job_uuid", "abc"), ("return_url", "http://x")],
    [101, 99, 104, 111, 32, 104, 105], "m1"⟩

/-- The request `{event: cancel, job_uuid: "abc"}`. -/
def reqCancel : Data := ⟨[("event", "cancel"), ("job_uuid", "abc")], [], "m2"⟩

/-- The reads of a pipe before its end: one read of the three bytes `hi` and newline. -/
def readsHi : List ReadResult := [⟨[104, 105, 10], none, by decide⟩]

/-- The read that reports the end of the stream, with no byte. -/
def readEof : ReadResult := ⟨[], some ReadErr.eof, by decide⟩

/-- A world in which every operation succeeds: the script prints `hi` and a newline on
stdout, nothing on stderr, and exits with code 0; the child has pid 4242. -/
def worldOk : World where
  tempFile := some "/tmp/ygg_rex1"
  writeN := 7
  writeOk := true
  closeOk := true
  chmodOk := true
  stdoutPipeOk := true
  stderrPipeOk := true
  start := some 4242
  stdout := readsHi ++ [readEof]
  stderr := [readEof]
  sched := []
  wait := WaitResult.ok
  killOk := true

/-- As `worldOk`, with another temporary file and the pid 4343. -/
def worldOk2 : World := { worldOk with tempFile := some "/tmp/ygg_rex2", start := some 4343 }

/-- As `worldOk`, but `ioutil.TempFile` fails. -/
def worldCreateFails : World := { worldOk with tempFile := none }

/-- As `worldOk`, but `scriptfile.Write` fails after writing nothing. -/
def worldWriteFails : World := { worldOk with writeN := 0, writeOk := false }

/-- As `worldOk`, but `scriptfile.Close` fails. -/
def worldCloseFails : World := { worldOk with closeOk := false }

/-- As `worldOk`, but `os.Chmod` fails. -/
def worldChmodFails : World := { worldOk with chmodOk := false }

/-! ## Lemmas -/

theorem Interleaving.left_only {α : Type} (xs : List α) : Interleaving xs [] xs := by
  induction xs with
  | nil => exact Interleaving.nil
  | cons x xs ih => exact Interleaving.left x ih

theorem Interleaving.right_only {α : Type} (ys : List α) : Interleaving [] ys ys := by
  induction ys with
  | nil => exact Interleaving.nil
  | cons y ys ih => exact Interleaving.right y ih

theorem Interleaving.append_both {α : Type} (xs ys : List α) : Interleaving xs ys (xs ++ ys) := by
  induction xs with
  | nil => exact Interleaving.right_only ys
  | cons x xs ih => exact Interleaving.left x ih

theorem interleave_interleaving {α : Type} (sch : List Bool) (xs ys : List α) :
    Interleaving xs ys (interleave sch xs ys) := by
  induction sch generalizing xs ys with
  | nil =>
    cases xs with
    | nil => simpa [interleave] using Interleaving.right_only ys
    | cons x xs =>
      cases ys with
      | nil => simpa [interleave] using Interleaving.left_only (x :: xs)
      | cons y ys => simpa [interleave] using Interleaving.append_both (x :: xs) (y :: ys)
  | cons b sch ih =>
    cases xs with
    | nil => simpa [interleave] using Interleaving.right_only ys
    | cons x xs =>
      cases ys with
      | nil => simpa [interleave] using Interleaving.left_only (x :: xs)
      | cons y ys =>
        cases b with
        | true => simpa [interleave] using Interleaving.left x (ih xs (y :: ys))
        | false => simpa [interleave] using Interleaving.right y (ih (x :: xs) ys)

theorem Interleaving.mem_iff {α : Type} {xs ys zs : List α} (h : Interleaving xs ys zs) (a : α) :
    a ∈ zs ↔ a ∈ xs ∨ a ∈ ys := by
  induction h with
  | nil => simp
  | left x _ ih => simp [ih, or_assoc]
  | right y _ ih => simp [ih]; tauto

theorem Interleaving.updatesOf {xs ys zs : List Event} (h : Interleaving xs ys zs) :
    Interleaving (updatesOf xs) (updatesOf ys) (updatesOf zs) := by
  induction h with
  | nil => exact Interleaving.nil
  | left x _ ih => cases x <;> simp only [Runner.updatesOf] <;> first | exact ih | exact Interleaving.left _ ih
  | right y _ ih => cases y <;> simp only [Runner.updatesOf] <;> first | exact ih | exact Interleaving.right _ ih

theorem Interleaving.filter {α : Type} (p : α → Bool) {xs ys zs : List α} (h : Interleaving xs ys zs) :
    Interleaving (xs.filter p) (ys.filter p) (zs.filter p) := by
  induction h with
  | nil => exact Interleaving.nil
  | left x _ ih =>
    by_cases hp : p x = true
    · simpa [List.filter_cons, hp] using Interleaving.left x ih
    · simpa [List.filter_cons, hp] using ih
  | right y _ ih =>
    by_cases hp : p y = true
    · simpa [List.filter_cons, hp] using Interleaving.right y ih
    · simpa [List.filter_cons, hp] using ih

theorem updatesOf_append (xs ys : List Event) :
    updatesOf (xs ++ ys) = updatesOf xs ++ updatesOf ys := by
  induction xs with
  | nil => rfl
  | cons x xs ih => cases x <;> simp [updatesOf, ih]

/-- Every effect of a collector is a log line or the send of an `Output` update. -/
theorem outputCollector_events (stdtype : String) (reads : List ReadResult) :
    ∀ e ∈ (outputCollector stdtype reads).events, e.isCollectorEvent = true := by
  induction reads with
  | nil => simp [outputCollector]
  | cons r rest ih =>
    intro e he
    have hem : ∀ e ∈ (if r.n > 0 then
        [Event.log Level.trace Msg.streamMessage, Event.send (NewOutputUpdate stdtype r.data)]
        else []), e.isCollectorEvent = true := by
      intro e he
      split at he
      · simp only [List.mem_cons, List.mem_singleton, List.not_mem_nil, or_false] at he
        rcases he with rfl | rfl <;> rfl
      · simp at he
    unfold outputCollector at he
    cases hr : r.err with
    | some x =>
      simp only [hr, List.mem_append] at he
      rcases he with he | he
      · exact hem e he
      · split at he
        · simp only [List.mem_singleton] at he
          subst he
          rfl
        · simp at he
    | none =>
      simp only [hr, List.mem_append] at he
      rcases he with he | he
      · exact hem e he
      · exact ih e he

/-- The sends of a list of effects are its channel operations when it has no close. -/
theorem updatesOf_map_send (us : List V1Update) : updatesOf (us.map Event.send) = us := by
  induction us with
  | nil => rfl
  | cons u us ih => simp [updatesOf, ih]

theorem updatesOf_filter_onChannel (es : List Event) :
    updatesOf (es.filter Event.onChannel) = updatesOf es := by
  induction es with
  | nil => rfl
  | cons e es ih => cases e <;> simp [List.filter_cons, Event.onChannel, updatesOf, ih]

/-- The channel operations of a collector whose reads are `pre`, without error, then
`rk`, with an error: one send for each of these reads that yielded bytes. -/
theorem outputCollector_channel (stdtype : String) (pre : List ReadResult) (rk : ReadResult)
    (post : List ReadResult) (hpre : ∀ r ∈ pre, r.err = none) (hk : rk.err ≠ none) :
    (outputCollector stdtype (pre ++ rk :: post)).finished = true ∧
    (outputCollector stdtype (pre ++ rk :: post)).events.filter Event.onChannel =
      ((pre ++ [rk]).filter (fun r => decide (0 < r.n))).map
        (fun r => Event.send (V1Update.output stdtype r.data)) := by
  induction pre with
  | nil =>
    obtain ⟨x, hx⟩ := Option.ne_none_iff_exists'.mp hk
    simp only [List.nil_append]
    unfold outputCollector
    simp only [hx]
    by_cases hn : 0 < rk.n <;> by_cases hxe : x = ReadErr.eof <;>
      simp [hn, hxe, List.filter_cons, Event.onChannel, NewOutputUpdate]
  | cons r pre ih =>
    have hr : r.err = none := hpre r (List.mem_cons_self _ _)
    have ih2 := ih (fun q hq => hpre q (List.mem_cons_of_mem _ hq))
    simp only [List.cons_append]
    unfold outputCollector
    simp only [hr]
    refine ⟨ih2.1, ?_⟩
    by_cases hn : 0 < r.n
    · simp [hn, List.filter_cons, Event.onChannel, NewOutputUpdate, ih2.2]
    · simp [hn, List.filter_cons, Event.onChannel, ih2.2]

theorem flatten_filter_pos (l : List ReadResult) :
    ((l.filter (fun r => decide (0 < r.n))).map ReadResult.data).flatten
      = (l.map ReadResult.data).flatten := by
  induction l with
  | nil => rfl
  | cons r l ih =>
    by_cases hn : 0 < r.n
    · simp [List.filter_cons, hn, ih]
    · have h0 : r.data = [] := by
        have : r.data.length = 0 := by simpa [ReadResult.n] using hn
        exact List.length_eq_zero.mp this
      simp [List.filter_cons, hn, ih, h0]

/-- C2. `outputCollector`, for every stream name and every sequence of reads in which
`rk` is the first read that returns an error (the reads `pre` before it return none):
the loop ends; its operations on the channel are exactly one send of
`Output{stdtype, bytes of the read}` for each read up to `rk` that yielded at least one
byte, in read order, and no close; so the contents of the updates, concatenated in order,
are the bytes read; every update carries at least 1 byte and at most 4096, the size of
the buffer; and reads that yield no byte produce no update. -/
theorem outputCollector_spec (stdtype : String) (pre : List ReadResult) (rk : ReadResult)
    (post : List ReadResult) (hpre : ∀ r ∈ pre, r.err = none) (hk : rk.err ≠ none) :
    (outputCollector stdtype (pre ++ rk :: post)).finished = true ∧
    (outputCollector stdtype (pre ++ rk :: post)).events.filter Event.onChannel =
      ((pre ++ [rk]).filter (fun r => decide (0 < r.n))).map
        (fun r => Event.send (V1Update.output stdtype r.data)) ∧
    Event.chanClosed ∉ (outputCollector stdtype (pre ++ rk :: post)).events ∧
    updatesOf (outputCollector stdtype (pre ++ rk :: post)).events =
      ((pre ++ [rk]).filter (fun r => decide (0 < r.n))).map
        (fun r => V1Update.output stdtype r.data) ∧
    ((updatesOf (outputCollector stdtype (pre ++ rk :: post)).events).map V1Update.bytes).flatten
      = ((pre ++ [rk]).map ReadResult.data).flatten ∧
    (∀ u ∈ updatesOf (outputCollector stdtype (pre ++ rk :: post)).events,
      ∃ content, u = V1Update.output stdtype content ∧ 1 ≤ content.length) ∧
    (∀ u ∈ updatesOf (outputCollector stdtype (pre ++ rk :: post)).events,
      u.bytes.length ≤ 4096) ∧
    ((∀ r ∈ pre ++ [rk], r.n = 0) →
      updatesOf (outputCollector stdtype (pre ++ rk :: post)).events = []) := by
  obtain ⟨hfin, hchan⟩ := outputCollector_channel stdtype pre rk post hpre hk
  have hup : updatesOf (outputCollector stdtype (pre ++ rk :: post)).events =
      ((pre ++ [rk]).filter (fun r => decide (0 < r.n))).map
        (fun r => V1Update.output stdtype r.data) := by
    rw [← updatesOf_filter_onChannel, hchan]
    rw [show (fun r : ReadResult => Event.send (V1Update.output stdtype r.data))
      = Event.send ∘ (fun r : ReadResult => V1Update.output stdtype r.data) from rfl,
      ← List.map_map, updatesOf_map_send]
  refine ⟨hfin, hchan, ?_, hup, ?_, ?_, ?_, ?_⟩
  · intro hmem
    have := outputCollector_events stdtype (pre ++ rk :: post) _ hmem
    simp [Event.isCollectorEvent] at this
  · rw [hup, List.map_map]
    exact flatten_filter_pos (pre ++ [rk])
  · intro u hu
    rw [hup] at hu
    obtain ⟨r, hr, rfl⟩ := List.mem_map.mp hu
    have hpos := (List.mem_filter.mp hr).2
    exact ⟨r.data, rfl, by simpa [ReadResult.n] using hpos⟩
  · intro u hu
    rw [hup] at hu
    obtain ⟨r, hr, rfl⟩ := List.mem_map.mp hu
    have := r.fits
    simpa [V1Update.bytes, bufSize] using this
  · intro hzero
    rw [hup]
    simp only [List.map_eq_nil_iff, List.filter_eq_nil_iff]
    intro r hr
    simp [hzero r hr]

/-! ### The shape of a run of `startScript` -/

theorem filter_onChannel_collector (es : List Event)
    (h : ∀ e ∈ es, e.isCollectorEvent = true) :
    es.filter Event.onChannel = (updatesOf es).map Event.send := by
  induction es with
  | nil => rfl
  | cons e es ih =>
    have ih2 := ih (fun x hx => h x (List.mem_cons_of_mem _ hx))
    have he := h e (List.mem_cons_self _ _)
    cases e <;> simp_all [List.filter_cons, Event.onChannel, updatesOf, Event.isCollectorEvent]

theorem updatesOf_collector_output (es : List Event)
    (h : ∀ e ∈ es, e.isCollectorEvent = true) :
    ∀ u ∈ updatesOf es, ∃ stream content, u = V1Update.output stream content := by
  induction es with
  | nil => simp [updatesOf]
  | cons e es ih =>
    have ih2 := ih (fun x hx => h x (List.mem_cons_of_mem _ hx))
    have he := h e (List.mem_cons_self _ _)
    cases e with
    | send u =>
      cases u with
      | output st c =>
        intro v hv
        simp only [updatesOf, List.mem_cons] at hv
        rcases hv with rfl | hv
        · exact ⟨st, c, rfl⟩
        · exact ih2 v hv
      | exit c => simp [Event.isCollectorEvent] at he
    | _ => simpa [updatesOf] using ih2

/-- The effects of the two collectors, merged: all are collector effects. -/
theorem collected_events (w : World) :
    ∀ e ∈ interleave w.sched (outputCollector "stdout" w.stdout).events
        (outputCollector "stderr" w.stderr).events, e.isCollectorEvent = true := by
  intro e he
  rcases ((interleave_interleaving w.sched _ _).mem_iff e).mp he with h | h
  · exact outputCollector_events _ _ e h
  · exact outputCollector_events _ _ e h

theorem exitStatus_of_code (c : Nat) (hc : c ≤ 255) :
    (WaitStatus.mk (c * 256)).ExitStatus = (c : Int) := by
  have h1 : c * 256 % 128 = 0 := by omega
  have h2 : c * 256 / 256 % 256 = c := by omega
  unfold WaitStatus.ExitStatus WaitStatus.Exited
  simp only [h1, h2, beq_self_eq_true, if_true]

theorem exitEvents_not_started (r : WaitResult) (pid : Int) :
    Event.started pid ∉ exitEvents r := by
  cases r with
  | ok => simp [exitEvents]
  | exitError sys => cases sys <;> simp [exitEvents]
  | otherError => simp [exitEvents]

theorem runStarted_not_started (j : Option String) (name : String) (p : Int) (s : jobStorage)
    (w : World) (pid : Int) : Event.started pid ∉ (runStarted j name p s w).events := by
  have hcol : Event.started pid ∉ interleave w.sched (outputCollector "stdout" w.stdout).events
      (outputCollector "stderr" w.stderr).events := fun h => by
    have := collected_events w _ h
    simp [Event.isCollectorEvent] at this
  have hexit := exitEvents_not_started w.wait pid
  unfold runStarted
  cases j <;>
    cases h1 : (outputCollector "stdout" w.stdout).finished <;>
    cases h2 : (outputCollector "stderr" w.stderr).finished <;>
    simp [hcol, hexit, h1, h2]

theorem started_mem_launch (j : Option String) (name : String) (s : jobStorage) (w : World)
    (pid : Int) :
    Event.started pid ∈ (launch j name s w).events ↔
      (w.closeOk = true ∧ w.chmodOk = true ∧ w.stdoutPipeOk = true ∧ w.stderrPipeOk = true ∧
        w.start = some pid) := by
  unfold launch
  cases hc : w.closeOk <;> cases hm : w.chmodOk <;> cases ho : w.stdoutPipeOk <;>
      cases he : w.stderrPipeOk <;> cases hs : w.start <;>
      simp [runStarted_not_started, eq_comm]

/-- The process is started exactly when the temporary file was made, closed and made
executable, both pipes were obtained and `cmd.Start` succeeded. -/
theorem started_iff (d : Data) (s : jobStorage) (w : World) (pid : Int) :
    Event.started pid ∈ (startScript d s w).events ↔
      ∃ name, w.tempFile = some name ∧ w.closeOk = true ∧ w.chmodOk = true ∧
        w.stdoutPipeOk = true ∧ w.stderrPipeOk = true ∧ w.start = some pid := by
  unfold startScript
  cases hf : w.tempFile with
  | none => cases hj : d.get "job_uuid" <;> simp
  | some name =>
    cases hj : d.get "job_uuid" <;> cases hw : w.writeOk <;>
      simp [started_mem_launch]

/-- A run in which the process starts: effects on the temporary file and log lines, then
the start of the process, then lines 84-114. -/
theorem startScript_started_shape (d : Data) (s : jobStorage) (w : World) (name : String)
    (pid : Int) (hf : w.tempFile = some name) (hc : w.closeOk = true) (hm : w.chmodOk = true)
    (ho : w.stdoutPipeOk = true) (he : w.stderrPipeOk = true) (hs : w.start = some pid) :
    ∃ pre, (∀ e ∈ pre, e.isStaging = true) ∧
      (startScript d s w).events = pre ++ Event.started pid ::
        Event.log Level.info Msg.startedProcess ::
          (runStarted (d.get "job_uuid") name pid s w).events ∧
      (startScript d s w).outcome = (runStarted (d.get "job_uuid") name pid s w).outcome ∧
      (startScript d s w).storage = (runStarted (d.get "job_uuid") name pid s w).storage := by
  refine ⟨((if (d.get "job_uuid").isNone then [Event.log Level.warn Msg.noJobUUIDStart] else [])
      ++ [Event.log Level.trace Msg.runningScript])
      ++ ([Event.tempCreated name, Event.written name w.writeN]
        ++ (if !w.writeOk then [Event.log Level.error Msg.writeTmpFailed] else [])
        ++ [Event.log Level.debug Msg.scriptWritten])
      ++ [Event.closed name, Event.chmodded name], ?_, ?_, ?_, ?_⟩
  · rw [← List.all_eq_true]
    cases hj : (d.get "job_uuid").isNone <;> cases hw : w.writeOk <;>
      simp [Event.isStaging]
  · simp [startScript, launch, hf, hc, hm, ho, he, hs]
  · simp [startScript, launch, hf, hc, hm, ho, he, hs]
  · simp [startScript, launch, hf, hc, hm, ho, he, hs]

theorem runStarted_finished (j : Option String) (name : String) (pid : Int) (s : jobStorage)
    (w : World) (h : bothFinished w = true) :
    runStarted j name pid s w =
      ⟨(match j with | some id => [Event.regSet id pid] | none => []) ++ collected w
          ++ [Event.collectorsDone, Event.waited] ++ exitEvents w.wait ++ [Event.chanClosed]
          ++ (match j with | some id => [Event.regRemove id] | none => [])
          ++ [Event.fileRemoved name],
        Outcome.returned,
        match j with | some id => (s.Set id pid).Remove id | none => s⟩ := by
  unfold bothFinished at h
  unfold runStarted collected
  rw [if_pos h]
  cases j <;> rfl

theorem runStarted_blocked (j : Option String) (name : String) (pid : Int) (s : jobStorage)
    (w : World) (h : bothFinished w = false) :
    runStarted j name pid s w =
      ⟨(match j with | some id => [Event.regSet id pid] | none => []) ++ collected w,
        Outcome.blocked,
        match j with | some id => s.Set id pid | none => s⟩ := by
  unfold bothFinished at h
  unfold runStarted collected
  rw [if_neg (by simp [h])]

theorem filter_onChannel_staging (es : List Event) (h : ∀ e ∈ es, e.isStaging = true) :
    es.filter Event.onChannel = [] := by
  rw [List.filter_eq_nil_iff]
  intro e he
  have := h e he
  cases e <;> simp_all [Event.isStaging, Event.onChannel]

theorem runStarted_channel (j : Option String) (name : String) (pid : Int) (s : jobStorage)
    (w : World) :
    (runStarted j name pid s w).events.filter Event.onChannel =
      (updatesOf (collected w)).map Event.send ++
        (if bothFinished w then (exitEvents w.wait).filter Event.onChannel ++ [Event.chanClosed]
          else []) := by
  have hcol := filter_onChannel_collector (collected w) (collected_events w)
  cases hb : bothFinished w
  · rw [runStarted_blocked j name pid s w hb]
    cases j <;> simp [List.filter_cons, Event.onChannel, hcol]
  · rw [runStarted_finished j name pid s w hb]
    cases j <;> simp [List.filter_cons, Event.onChannel, hcol]

/-- C1. `startScript`, for every run in which the child process is started: the
operations on the channel are the sends of the collectors (an interleaving of the
updates of the stdout collector and of the stderr collector, all of them `Output`
updates) and, when both collectors end (else the run stays blocked on `wg.Wait()`), at
most one `Exit` update, then the close of the channel, which is last. The `Exit` update
is `Exit{0}` when the wait succeeds, `Exit{status.ExitStatus()}` when the wait reports an
exit error with a wait status, in particular `Exit{c}` for a script that terminates with
exit code `c ≤ 255`; for any other wait error there is no `Exit` update and the channel
is closed all the same. -/
theorem startScript_channel (d : Data) (s : jobStorage) (w : World) (pid : Int)
    (hstart : Event.started pid ∈ (startScript d s w).events) :
    ∃ merged : List V1Update,
      Interleaving (updatesOf (outputCollector "stdout" w.stdout).events)
        (updatesOf (outputCollector "stderr" w.stderr).events) merged ∧
      (∀ u ∈ merged, ∃ stream content, u = V1Update.output stream content) ∧
      (bothFinished w = false →
        (startScript d s w).events.filter Event.onChannel = merged.map Event.send) ∧
      (bothFinished w = true →
        (w.wait = WaitResult.ok →
          (startScript d s w).events.filter Event.onChannel =
            merged.map Event.send ++ [Event.send (V1Update.exit 0), Event.chanClosed]) ∧
        (∀ status, w.wait = WaitResult.exitError (some status) →
          (startScript d s w).events.filter Event.onChannel =
            merged.map Event.send ++
              [Event.send (V1Update.exit status.ExitStatus), Event.chanClosed]) ∧
        (∀ c : Nat, c ≤ 255 → w.wait = waitOfExitCode c →
          (startScript d s w).events.filter Event.onChannel =
            merged.map Event.send ++ [Event.send (V1Update.exit (c : Int)), Event.chanClosed]) ∧
        (w.wait = WaitResult.exitError none ∨ w.wait = WaitResult.otherError →
          (startScript d s w).events.filter Event.onChannel =
            merged.map Event.send ++ [Event.chanClosed])) := by
  obtain ⟨name, hf, hc, hm, ho, he, hs⟩ := (started_iff d s w pid).mp hstart
  obtain ⟨pre, hpre, hev, -, -⟩ := startScript_started_shape d s w name pid hf hc hm ho he hs
  have hchan : (startScript d s w).events.filter Event.onChannel =
      (updatesOf (collected w)).map Event.send ++
        (if bothFinished w then (exitEvents w.wait).filter Event.onChannel ++ [Event.chanClosed]
          else []) := by
    rw [hev, List.filter_append, filter_onChannel_staging pre hpre]
    simp [List.filter_cons, Event.onChannel, runStarted_channel]
  refine ⟨updatesOf (collected w), (interleave_interleaving _ _ _).updatesOf,
    updatesOf_collector_output _ (collected_events w), ?_, ?_⟩
  · intro hb
    rw [hchan, hb]
    simp
  · intro hb
    rw [hchan, hb]
    refine ⟨?_, ?_, ?_, ?_⟩
    · intro hw
      simp [hw, exitEvents, NewExitUpdate, Event.onChannel]
    · intro status hw
      simp [hw, exitEvents, NewExitUpdate, Event.onChannel]
    · intro c hc hw
      by_cases h0 : c = 0
      · subst h0
        have hw2 : w.wait = WaitResult.ok := by simpa [waitOfExitCode] using hw
        simp [hw2, exitEvents, NewExitUpdate, Event.onChannel]
      · have hw2 : w.wait = WaitResult.exitError (some ⟨c * 256⟩) := by
          simpa [waitOfExitCode, h0] using hw
        simp [hw2, exitEvents, NewExitUpdate, Event.onChannel, exitStatus_of_code c hc]
    · intro hw
      rcases hw with hw | hw <;> simp [hw, exitEvents, Event.onChannel]

theorem cancel_no_id (d : Data) (s : jobStorage) (w : World) (h : d.get "job_uuid" = none) :
    cancel d s w = ⟨[Event.log Level.error Msg.noJobUUIDCancel], Outcome.returned, s⟩ := by
  simp [cancel, h]

theorem cancel_unknown (d : Data) (s : jobStorage) (w : World) (id : String)
    (h : d.get "job_uuid" = some id) (hg : s.Get id = none) :
    cancel d s w = ⟨[Event.log Level.error Msg.unknownJob], Outcome.returned, s⟩ := by
  simp [cancel, h, hg]

theorem cancel_known (d : Data) (s : jobStorage) (w : World) (id : String) (pid : Int)
    (h : d.get "job_uuid" = some id) (hg : s.Get id = some pid) :
    cancel d s w = ⟨[Event.log Level.info Msg.cancelling, Event.kill pid Signal.SIGTERM]
          ++ (if !w.killOk then [Event.log Level.error Msg.sigtermFailed] else []),
        Outcome.returned, s⟩ := by
  simp [cancel, h, hg]

/-- C3. `cancel`, for every request, registry and outcome of the signal delivery: it
returns normally and leaves the registry unchanged; a signal is among its effects if and
only if the metadata holds `job_uuid` and the registry maps that id to a pid, and then
its signals are exactly one `SIGTERM` to that pid, whether or not the delivery fails;
when `job_uuid` is missing or the id is not registered, its only effect is one
error-level log line. -/
theorem cancel_spec (d : Data) (s : jobStorage) (w : World) :
    (cancel d s w).outcome = Outcome.returned ∧
    (cancel d s w).storage = s ∧
    (∀ pid sig, Event.kill pid sig ∈ (cancel d s w).events ↔
      (sig = Signal.SIGTERM ∧ ∃ id, d.get "job_uuid" = some id ∧ s.Get id = some pid)) ∧
    (∀ id pid, d.get "job_uuid" = some id → s.Get id = some pid →
      (cancel d s w).events.filter Event.isKill = [Event.kill pid Signal.SIGTERM]) ∧
    (d.get "job_uuid" = none →
      (cancel d s w).events = [Event.log Level.error Msg.noJobUUIDCancel]) ∧
    (∀ id, d.get "job_uuid" = some id → s.Get id = none →
      (cancel d s w).events = [Event.log Level.error Msg.unknownJob]) ∧
    ((d.get "job_uuid" = none ∨ ∃ id, d.get "job_uuid" = some id ∧ s.Get id = none) →
      (cancel d s w).events.filter Event.isKill = [] ∧
      ((cancel d s w).events.filter Event.isErrorLog).length = 1) := by
  cases hj : d.get "job_uuid" with
  | none =>
    rw [cancel_no_id d s w hj]
    simp [Event.isKill, Event.isErrorLog]
  | some id =>
    cases hg : s.Get id with
    | none =>
      rw [cancel_unknown d s w id hj hg]
      refine ⟨rfl, rfl, ?_, ?_, ?_, ?_, ?_⟩
      · intro pid sig
        constructor
        · intro hmem
          simp at hmem
        · rintro ⟨-, id2, hid, hget⟩
          obtain rfl : id = id2 := Option.some.inj hid
          simp [hg] at hget
      · intro id2 pid hid hget
        obtain rfl : id = id2 := Option.some.inj hid
        simp [hg] at hget
      · simp
      · simp
      · simp [Event.isKill, Event.isErrorLog]
    | some pid =>
      rw [cancel_known d s w id pid hj hg]
      refine ⟨rfl, rfl, ?_, ?_, ?_, ?_, ?_⟩
      · intro pid2 sig
        cases sig
        constructor
        · intro hmem
          have hp : pid2 = pid := by
            cases hk : w.killOk <;> simpa [hk] using hmem
          exact ⟨rfl, id, rfl, by rw [hg, hp]⟩
        · rintro ⟨-, id2, hid, hget⟩
          obtain rfl : id = id2 := Option.some.inj hid
          obtain rfl : pid = pid2 := Option.some.inj (hg.symm.trans hget)
          simp
      · intro id2 pid2 hid hget
        obtain rfl : id = id2 := Option.some.inj hid
        obtain rfl : pid = pid2 := Option.some.inj (hg.symm.trans hget)
        cases hk : w.killOk <;> simp [List.filter_cons, Event.isKill]
      · simp
      · intro id2 hid hget
        obtain rfl : id = id2 := Option.some.inj hid
        simp [hg] at hget
      · rintro (h | ⟨id2, hid, hget⟩)
        · simp at h
        · obtain rfl : id = id2 := Option.some.inj hid
          simp [hg] at hget

/-- C4. `dispatch`, for every request, registry and world: with `event` equal to
"start" it is `startScript`; with no `event` key it is `startScript` preceded by one
warning log line, so with the same effects other than log lines, the same outcome and
the same registry; with `event` equal to "cancel" it is `cancel`; for every other value
of `event`, the empty string and "Start" among them, its only effect is one error log
line, it returns, and the registry is unchanged. -/
theorem dispatch_spec (d : Data) (s : jobStorage) (w : World) :
    (d.get "event" = some "start" → dispatch d s w = startScript d s w) ∧
    (d.get "event" = none →
      dispatch d s w = ⟨Event.log Level.warn Msg.noEventAssumeStart :: (startScript d s w).events,
        (startScript d s w).outcome, (startScript d s w).storage⟩) ∧
    (d.get "event" = none →
      (dispatch d s w).events.filter (fun e => !e.isLog) =
        (startScript d s w).events.filter (fun e => !e.isLog) ∧
      (dispatch d s w).outcome = (startScript d s w).outcome ∧
      (dispatch d s w).storage = (startScript d s w).storage) ∧
    (d.get "event" = some "cancel" → dispatch d s w = cancel d s w) ∧
    (∀ event, d.get "event" = some event → event ≠ "start" → event ≠ "cancel" →
      dispatch d s w = ⟨[Event.log Level.error Msg.unknownEvent], Outcome.returned, s⟩) ∧
    (d.get "event" = some "" →
      dispatch d s w = ⟨[Event.log Level.error Msg.unknownEvent], Outcome.returned, s⟩) ∧
    (d.get "event" = some "Start" →
      dispatch d s w = ⟨[Event.log Level.error Msg.unknownEvent], Outcome.returned, s⟩) := by
  have hother : ∀ event, d.get "event" = some event → event ≠ "start" → event ≠ "cancel" →
      dispatch d s w = ⟨[Event.log Level.error Msg.unknownEvent], Outcome.returned, s⟩ := by
    intro event he h1 h2
    simp [dispatch, dispatchEvent, he, h1, h2]
  refine ⟨?_, ?_, ?_, ?_, hother, ?_, ?_⟩
  · intro he
    simp [dispatch, dispatchEvent, he]
  · intro he
    simp [dispatch, dispatchEvent, he]
  · intro he
    simp [dispatch, dispatchEvent, he, List.filter_cons, Event.isLog]
  · intro he
    have hne : ("cancel" : String) ≠ "start" := by decide
    simp [dispatch, dispatchEvent, he, hne]
  · intro he
    exact hother "" he (by decide) (by decide)
  · intro he
    exact hother "Start" he (by decide) (by decide)

/-! ### The registry in a run of `startScript` -/

theorem exitEvents_mem (r : WaitResult) (e : Event) (h : e ∈ exitEvents r) :
    (∃ c, e = Event.send (V1Update.exit c)) ∨ e = Event.log Level.error Msg.scriptRunFailed := by
  cases r with
  | ok => exact Or.inl ⟨0, by simpa [exitEvents, NewExitUpdate] using h⟩
  | exitError sys =>
    cases sys with
    | none => simp [exitEvents] at h
    | some st => exact Or.inl ⟨st.ExitStatus, by simpa [exitEvents, NewExitUpdate] using h⟩
  | otherError => exact Or.inr (by simpa [exitEvents] using h)

theorem exitEvents_onRegistry (r : WaitResult) (e : Event) (h : e ∈ exitEvents r) :
    e.onRegistry = false := by
  rcases exitEvents_mem r e h with ⟨c, rfl⟩ | rfl <;> rfl

theorem collected_onRegistry (w : World) (e : Event) (h : e ∈ collected w) :
    e.onRegistry = false := by
  have := collected_events w e h
  cases e <;> simp_all [Event.isCollectorEvent, Event.onRegistry]

theorem staging_onRegistry (es : List Event) (hes : ∀ e ∈ es, e.isStaging = true) (e : Event)
    (h : e ∈ es) : e.onRegistry = false := by
  have := hes e h
  cases e <;> simp_all [Event.isStaging, Event.onRegistry]

theorem step_of_not_registry (s : jobStorage) (e : Event) (h : e.onRegistry = false) :
    s.step e = s := by
  cases e <;> first | rfl | cases h

/-- A list of effects with no operation on the registry leaves the registry as it is. -/
theorem replay_of_no_registry (es : List Event) (s : jobStorage)
    (h : ∀ e ∈ es, e.onRegistry = false) : s.replay es = s := by
  induction es generalizing s with
  | nil => rfl
  | cons e es ih =>
    have he := h e (List.mem_cons_self _ _)
    have hs : s.step e = s := step_of_not_registry s e he
    show jobStorage.replay (s.step e) es = s
    rw [hs]
    exact ih s (fun x hx => h x (List.mem_cons_of_mem _ hx))

theorem replay_append (es fs : List Event) (s : jobStorage) :
    s.replay (es ++ fs) = (s.replay es).replay fs := by
  simp [jobStorage.replay, List.foldl_append]

/-- While the only operations on the registry are `Set(id, pid)`, the entry of `id` is
`pid` once set, and the entries of the other ids never change. -/
theorem replay_only_set (id : String) (pid : Int) (es : List Event) (s : jobStorage)
    (h : ∀ e ∈ es, e.onRegistry = true → e = Event.regSet id pid) :
    ((s.Get id = some pid ∨ Event.regSet id pid ∈ es) → (s.replay es).Get id = some pid) ∧
    (∀ k, k ≠ id → (s.replay es).Get k = s.Get k) := by
  induction es generalizing s with
  | nil =>
    refine ⟨?_, fun k _ => rfl⟩
    rintro (h1 | h1)
    · exact h1
    · simp at h1
  | cons e es ih =>
    have hrest : ∀ x ∈ es, x.onRegistry = true → x = Event.regSet id pid :=
      fun x hx => h x (List.mem_cons_of_mem _ hx)
    have ih2 := ih (s.step e) hrest
    have hstep : s.step e = s ∨ s.step e = s.Set id pid := by
      by_cases hr : e.onRegistry = true
      · right
        rw [h e (List.mem_cons_self _ _) hr]
        rfl
      · left
        exact step_of_not_registry s e (by simpa using hr)
    refine ⟨?_, ?_⟩
    · intro h1
      apply ih2.1
      rcases h1 with h1 | h1
      · rcases hstep with hs | hs
        · left; rw [hs]; exact h1
        · left; rw [hs]; simp [jobStorage.Set, jobStorage.Get]
      · rcases List.mem_cons.mp h1 with h1 | h1
        · left
          rw [← h1]
          simp [jobStorage.step, jobStorage.Set, jobStorage.Get]
        · right; exact h1
    · intro k hk
      show (jobStorage.replay (s.step e) es).Get k = s.Get k
      rw [ih2.2 k hk]
      rcases hstep with hs | hs
      · rw [hs]
      · rw [hs]; simp [jobStorage.Set, jobStorage.Get, hk]

/-- The operations of lines 84-114 on the registry: with a job id, `Set(id, pid)` and
`Remove(id)`; without one, none. -/
theorem runStarted_onRegistry (j : Option String) (name : String) (pid : Int) (s : jobStorage)
    (w : World) (e : Event) (he : e ∈ (runStarted j name pid s w).events)
    (hr : e.onRegistry = true) :
    ∃ id, j = some id ∧ (e = Event.regSet id pid ∨ e = Event.regRemove id) := by
  have hcol := collected_onRegistry w e
  have hexit := exitEvents_onRegistry w.wait e
  cases hb : bothFinished w
  · rw [runStarted_blocked j name pid s w hb] at he
    cases j with
    | none =>
      simp only [List.nil_append] at he
      rw [hcol he] at hr
      cases hr
    | some id =>
      simp only [List.mem_append, List.mem_singleton] at he
      rcases he with he | he
      · exact ⟨id, rfl, Or.inl he⟩
      · rw [hcol he] at hr
        cases hr
  · rw [runStarted_finished j name pid s w hb] at he
    cases j with
    | none =>
      simp only [List.nil_append, List.append_nil, List.mem_append, List.mem_cons,
        List.mem_singleton, List.not_mem_nil, or_false] at he
      rcases he with (((he | he | he) | he) | he) | he
      · rw [hcol he] at hr; cases hr
      · subst he; cases hr
      · subst he; cases hr
      · rw [hexit he] at hr; cases hr
      · subst he; cases hr
      · subst he; cases hr
    | some id =>
      simp only [List.mem_append, List.mem_cons, List.mem_singleton, List.not_mem_nil,
        or_false] at he
      rcases he with (((((he | he) | he | he) | he) | he) | he) | he
      · exact ⟨id, rfl, Or.inl he⟩
      · rw [hcol he] at hr; cases hr
      · subst he; cases hr
      · subst he; cases hr
      · rw [hexit he] at hr; cases hr
      · subst he; cases hr
      · exact ⟨id, rfl, Or.inr he⟩
      · subst he; cases hr

/-- When the process is not started, `launch` only logs and works on the temporary file. -/
theorem launch_local (j : Option String) (name : String) (s : jobStorage) (w : World)
    (h : ¬ (w.closeOk = true ∧ w.chmodOk = true ∧ w.stdoutPipeOk = true ∧
      w.stderrPipeOk = true ∧ ∃ pid, w.start = some pid)) :
    (launch j name s w).storage = s ∧ (launch j name s w).events.all Event.isLocal = true := by
  unfold launch
  cases hc : w.closeOk <;> cases hm : w.chmodOk <;> cases ho : w.stdoutPipeOk <;>
    cases he : w.stderrPipeOk <;> cases hs : w.start <;>
    simp_all [Event.isLocal]

/-- When the process is not started, `startScript` only logs and works on the temporary
file, and leaves the registry as it is. -/
theorem startScript_local (d : Data) (s : jobStorage) (w : World)
    (h : ∀ pid, Event.started pid ∉ (startScript d s w).events) :
    (startScript d s w).storage = s ∧ ∀ e ∈ (startScript d s w).events, e.isLocal = true := by
  have hno : ∀ name, w.tempFile = some name →
      ¬ (w.closeOk = true ∧ w.chmodOk = true ∧ w.stdoutPipeOk = true ∧
        w.stderrPipeOk = true ∧ ∃ pid, w.start = some pid) := by
    rintro name hf ⟨hc, hm, ho, he, pid, hs⟩
    exact h pid ((started_iff d s w pid).mpr ⟨name, hf, hc, hm, ho, he, hs⟩)
  rw [← List.all_eq_true]
  unfold startScript
  cases hf : w.tempFile with
  | none => cases hj : (d.get "job_uuid").isNone <;> simp [Event.isLocal, hj]
  | some name =>
    obtain ⟨h1, h2⟩ := launch_local (d.get "job_uuid") name s w (hno name hf)
    refine ⟨h1, ?_⟩
    cases hj : (d.get "job_uuid").isNone <;> cases hw : w.writeOk <;>
      simpa [Event.isLocal, hj, hw] using h2

theorem local_onRegistry (e : Event) (h : e.isLocal = true) : e.onRegistry = false := by
  cases e <;> first | rfl | cases h

/-- Every operation of `startScript` on the registry is `Set(id, pid)` or `Remove(id)`,
for the id of the request and the pid of the process it started. -/
theorem startScript_onRegistry (d : Data) (s : jobStorage) (w : World) (e : Event)
    (he : e ∈ (startScript d s w).events) (hr : e.onRegistry = true) :
    ∃ id pid, d.get "job_uuid" = some id ∧ w.start = some pid ∧
      Event.started pid ∈ (startScript d s w).events ∧
      (e = Event.regSet id pid ∨ e = Event.regRemove id) := by
  by_cases hst : ∃ pid, Event.started pid ∈ (startScript d s w).events
  · obtain ⟨pid, hstart⟩ := hst
    obtain ⟨name, hf, hc, hm, ho, hep, hs⟩ := (started_iff d s w pid).mp hstart
    obtain ⟨pre, hpre, hev, -, -⟩ := startScript_started_shape d s w name pid hf hc hm ho hep hs
    rw [hev] at he
    simp only [List.mem_append, List.mem_cons] at he
    rcases he with he | he | he | he
    · rw [staging_onRegistry pre hpre e he] at hr
      cases hr
    · subst he; cases hr
    · subst he; cases hr
    · obtain ⟨id, hid, hcase⟩ := runStarted_onRegistry _ name pid s w e he hr
      exact ⟨id, pid, hid, hs, hstart, hcase⟩
  · have hl := (startScript_local d s w (fun pid hp => hst ⟨pid, hp⟩)).2 e he
    rw [local_onRegistry e hl] at hr
    cases hr

/-- C8. `startScript`, for every request, registry and world: each of its operations on
the registry is `Set(id, pid)` or the deferred `Remove(id)`, where `id` is the `job_uuid`
of the metadata and `pid` the pid of the process it started; an entry it inserts is
`id -> pid`. When `job_uuid` is absent, or a pipe cannot be obtained, or the process
cannot be started, the run has no operation on the registry: the registry is the one it
was given at every point of the run and when it ends, so a `cancel` at any point does
what it would have done before the run. -/
theorem startScript_registry_frame (d : Data) (s : jobStorage) (w : World) :
    (∀ e ∈ (startScript d s w).events, e.onRegistry = true →
      ∃ id pid, d.get "job_uuid" = some id ∧ w.start = some pid ∧
        Event.started pid ∈ (startScript d s w).events ∧
        (e = Event.regSet id pid ∨ e = Event.regRemove id)) ∧
    (∀ id pid, Event.regSet id pid ∈ (startScript d s w).events →
      d.get "job_uuid" = some id ∧ w.start = some pid ∧
        Event.started pid ∈ (startScript d s w).events) ∧
    ((d.get "job_uuid" = none ∨ w.stdoutPipeOk = false ∨ w.stderrPipeOk = false ∨
        w.start = none) →
      (∀ e ∈ (startScript d s w).events, e.onRegistry = false) ∧
      (startScript d s w).storage = s ∧
      (∀ n, s.replay ((startScript d s w).events.take n) = s) ∧
      (∀ n d2 w2, cancel d2 (s.replay ((startScript d s w).events.take n)) w2 = cancel d2 s w2) ∧
      (∀ d2 w2, cancel d2 (startScript d s w).storage w2 = cancel d2 s w2)) := by
  refine ⟨fun e he hr => startScript_onRegistry d s w e he hr, ?_, ?_⟩
  · intro id pid hmem
    obtain ⟨id2, pid2, hid, hs, hst, hcase⟩ := startScript_onRegistry d s w _ hmem rfl
    rcases hcase with hcase | hcase
    · injection hcase with h1 h2
      subst h1 h2
      exact ⟨hid, hs, hst⟩
    · cases hcase
  · intro hcond
    have hnone : ∀ e ∈ (startScript d s w).events, e.onRegistry = false := by
      intro e he
      by_contra hr
      have hr2 : e.onRegistry = true := by simpa using hr
      obtain ⟨id, pid, hid, hs, hst, -⟩ := startScript_onRegistry d s w e he hr2
      obtain ⟨name, -, -, -, ho, hep, -⟩ := (started_iff d s w pid).mp hst
      rcases hcond with h | h | h | h
      · rw [hid] at h; cases h
      · rw [ho] at h; cases h
      · rw [hep] at h; cases h
      · rw [hs] at h; cases h
    have hstore : (startScript d s w).storage = s := by
      by_cases hst : ∃ pid, Event.started pid ∈ (startScript d s w).events
      · obtain ⟨pid, hstart⟩ := hst
        obtain ⟨name, hf, hc, hm, ho, hep, hs⟩ := (started_iff d s w pid).mp hstart
        obtain ⟨pre, -, -, -, hsto⟩ :=
          startScript_started_shape d s w name pid hf hc hm ho hep hs
        rcases hcond with h | h | h | h
        · rw [hsto, h]
          cases hb : bothFinished w
          · rw [runStarted_blocked none name pid s w hb]
          · rw [runStarted_finished none name pid s w hb]
        · rw [ho] at h; cases h
        · rw [hep] at h; cases h
        · rw [hs] at h; cases h
      · exact (startScript_local d s w (fun pid hp => hst ⟨pid, hp⟩)).1
    have hreplay : ∀ n, s.replay ((startScript d s w).events.take n) = s := fun n =>
      replay_of_no_registry _ s (fun e he => hnone e (List.mem_of_mem_take he))
    refine ⟨hnone, hstore, hreplay, ?_, ?_⟩
    · intro n d2 w2
      rw [hreplay n]
    · intro d2 w2
      rw [hstore]

theorem not_mem_of_no_registry (es : List Event) (h : ∀ e ∈ es, e.onRegistry = false)
    (e : Event) (he : e.onRegistry = true) : e ∉ es := by
  intro hmem
  rw [h e hmem] at he
  cases he

theorem step_set (s : jobStorage) (id : String) (pid : Int) :
    s.replay [Event.regSet id pid] = s.Set id pid := rfl

theorem step_remove (s : jobStorage) (id : String) :
    s.replay [Event.regRemove id] = s.Remove id := rfl

/-- C9. `startScript`, for every request with job id `id` whose process starts with pid
`pid`: `Set(id, pid)` is the effect that follows the start of the process (and its log);
at every later point of the run before `Remove(id)` the registry maps `id` to `pid` and
the other entries are those given. When both collectors end, the run goes on with
`wg.Wait()`, `cmd.Wait()`, the exit handling for whatever the wait returned, the close
of the channel, then `Remove(id)`, exactly once, then the removal of the file, and
returns; the registry it leaves has no entry for `id` and the other entries unchanged.
When a collector never ends, the run never returns and the entry stays. -/
theorem startScript_registration (d : Data) (s : jobStorage) (w : World) (id : String)
    (pid : Int) (hid : d.get "job_uuid" = some id)
    (hstart : Event.started pid ∈ (startScript d s w).events) :
    ∃ name pre, w.tempFile = some name ∧ (∀ e ∈ pre, e.onRegistry = false) ∧
      (∀ e ∈ collected w ++ [Event.collectorsDone, Event.waited] ++ exitEvents w.wait
        ++ [Event.chanClosed], e.onRegistry = false) ∧
      (bothFinished w = true →
        (startScript d s w).events =
          pre ++ [Event.started pid, Event.log Level.info Msg.startedProcess,
            Event.regSet id pid]
          ++ (collected w ++ [Event.collectorsDone, Event.waited] ++ exitEvents w.wait
            ++ [Event.chanClosed])
          ++ [Event.regRemove id, Event.fileRemoved name] ∧
        (startScript d s w).outcome = Outcome.returned ∧
        (startScript d s w).storage.Get id = none ∧
        (startScript d s w).events.count (Event.regRemove id) = 1) ∧
      (bothFinished w = false →
        (startScript d s w).events =
          pre ++ [Event.started pid, Event.log Level.info Msg.startedProcess,
            Event.regSet id pid] ++ collected w ∧
        (startScript d s w).outcome = Outcome.blocked ∧
        (startScript d s w).storage.Get id = some pid ∧
        Event.regRemove id ∉ (startScript d s w).events) ∧
      (∀ k, k ≠ id → (startScript d s w).storage.Get k = s.Get k) ∧
      (startScript d s w).storage = s.replay (startScript d s w).events ∧
      (∀ es1 es2, (startScript d s w).events = es1 ++ es2 → Event.regSet id pid ∈ es1 →
        Event.regRemove id ∉ es1 →
        (s.replay es1).Get id = some pid ∧ ∀ k, k ≠ id → (s.replay es1).Get k = s.Get k) := by
  obtain ⟨name, hf, hc, hm, ho, he, hs⟩ := (started_iff d s w pid).mp hstart
  obtain ⟨pre, hpre, hev, hout, hsto⟩ := startScript_started_shape d s w name pid hf hc hm ho he hs
  rw [hid] at hev hout hsto
  have hpreR : ∀ e ∈ pre, e.onRegistry = false := staging_onRegistry pre hpre
  have hmid : ∀ e ∈ collected w ++ [Event.collectorsDone, Event.waited] ++ exitEvents w.wait
      ++ [Event.chanClosed], e.onRegistry = false := by
    intro e hmem
    simp only [List.mem_append, List.mem_cons, List.mem_singleton, List.not_mem_nil,
      or_false] at hmem
    rcases hmem with ((hmem | hmem | hmem) | hmem) | hmem
    · exact collected_onRegistry w e hmem
    · subst hmem; rfl
    · subst hmem; rfl
    · exact exitEvents_onRegistry w.wait e hmem
    · subst hmem; rfl
  have hcolR : ∀ e ∈ collected w, e.onRegistry = false := collected_onRegistry w
  have hsplit : ∀ es1 es2, (startScript d s w).events = es1 ++ es2 →
      Event.regSet id pid ∈ es1 → Event.regRemove id ∉ es1 →
      (s.replay es1).Get id = some pid ∧ ∀ k, k ≠ id → (s.replay es1).Get k = s.Get k := by
    intro es1 es2 heq hset hrem
    have honly : ∀ e ∈ es1, e.onRegistry = true → e = Event.regSet id pid := by
      intro e hmem hr
      have hmem2 : e ∈ (startScript d s w).events := by
        rw [heq]
        exact List.mem_append_left _ hmem
      obtain ⟨id2, pid2, hid2, hs2, -, hcase⟩ := startScript_onRegistry d s w e hmem2 hr
      obtain rfl : id = id2 := Option.some.inj (hid.symm.trans hid2)
      obtain rfl : pid = pid2 := Option.some.inj (hs.symm.trans hs2)
      rcases hcase with hcase | hcase
      · exact hcase
      · subst hcase
        exact absurd hmem hrem
    have := replay_only_set id pid es1 s honly
    exact ⟨this.1 (Or.inr hset), this.2⟩
  refine ⟨name, pre, hf, hpreR, hmid, ?_, ?_, ?_, ?_, hsplit⟩
  · intro hb
    rw [runStarted_finished (some id) name pid s w hb] at hev hout hsto
    refine ⟨?_, hout, ?_, ?_⟩
    · rw [hev]
      simp
    · rw [hsto]
      simp [jobStorage.Remove, jobStorage.Get]
    · rw [hev]
      have h1 : Event.regRemove id ∉ pre := not_mem_of_no_registry pre hpreR _ rfl
      have h2 : Event.regRemove id ∉ collected w := not_mem_of_no_registry _ hcolR _ rfl
      have h3 : Event.regRemove id ∉ exitEvents w.wait :=
        not_mem_of_no_registry _ (exitEvents_onRegistry w.wait) _ rfl
      simp [List.count_append, List.count_cons, List.count_eq_zero_of_not_mem h1,
        List.count_eq_zero_of_not_mem h2, List.count_eq_zero_of_not_mem h3]
  · intro hb
    rw [runStarted_blocked (some id) name pid s w hb] at hev hout hsto
    refine ⟨?_, hout, ?_, ?_⟩
    · rw [hev]
      simp
    · rw [hsto]
      simp [jobStorage.Set, jobStorage.Get]
    · rw [hev]
      have h1 : Event.regRemove id ∉ pre := not_mem_of_no_registry pre hpreR _ rfl
      have h2 : Event.regRemove id ∉ collected w := not_mem_of_no_registry _ hcolR _ rfl
      simp [h1, h2]
  · intro k hk
    rw [hsto]
    cases hb : bothFinished w
    · rw [runStarted_blocked (some id) name pid s w hb]
      simp [jobStorage.Set, jobStorage.Get, hk]
    · rw [runStarted_finished (some id) name pid s w hb]
      simp [jobStorage.Set, jobStorage.Remove, jobStorage.Get, hk]
  · cases hb : bothFinished w
    · rw [runStarted_blocked (some id) name pid s w hb] at hev hsto
      have hS : (startScript d s w).storage = s.Set id pid := hsto
      have hE : (startScript d s w).events = pre ++ ([Event.started pid,
          Event.log Level.info Msg.startedProcess] ++ ([Event.regSet id pid] ++ collected w)) := by
        rw [hev]
        simp
      rw [hS, hE, replay_append, replay_of_no_registry pre s hpreR, replay_append,
        replay_of_no_registry _ s (by simp [Event.onRegistry]), replay_append, step_set,
        replay_of_no_registry _ _ hcolR]
    · rw [runStarted_finished (some id) name pid s w hb] at hev hsto
      have hS : (startScript d s w).storage = (s.Set id pid).Remove id := hsto
      have hE : (startScript d s w).events = pre ++ ([Event.started pid,
          Event.log Level.info Msg.startedProcess] ++ ([Event.regSet id pid] ++
          ((collected w ++ [Event.collectorsDone, Event.waited] ++ exitEvents w.wait
            ++ [Event.chanClosed]) ++ ([Event.regRemove id] ++ [Event.fileRemoved name])))) := by
        rw [hev]
        simp
      rw [hS, hE, replay_append, replay_of_no_registry pre s hpreR, replay_append,
        replay_of_no_registry _ s (by simp [Event.onRegistry]), replay_append, step_set,
        replay_append, replay_of_no_registry _ _ hmid, replay_append, step_remove,
        replay_of_no_registry _ _ (by simp [Event.onRegistry])]

/-! ### Failures while staging the script -/

/-- How `startScript` ends: with a panic exactly when `ioutil.TempFile` fails, with
`log.Fatal` exactly when the file was made and its close or chmod fails. -/
theorem startScript_outcome (d : Data) (s : jobStorage) (w : World) :
    ((startScript d s w).outcome = Outcome.panicked ↔ w.tempFile = none) ∧
    ((startScript d s w).outcome = Outcome.fatal ↔
      (w.tempFile ≠ none ∧ (w.closeOk = false ∨ w.chmodOk = false))) := by
  unfold startScript
  cases hf : w.tempFile with
  | none => simp
  | some name =>
    simp only [launch]
    cases hc : w.closeOk <;> cases hm : w.chmodOk <;> cases ho : w.stdoutPipeOk <;>
      cases he : w.stderrPipeOk <;> cases hs : w.start <;> simp [runStarted]
    split
    all_goals simp

/-- When making, closing or chmod-ing the temporary file fails, no process is started,
the registry is not touched and nothing is sent. -/
theorem startScript_staging_failure (d : Data) (s : jobStorage) (w : World)
    (h : w.tempFile = none ∨ w.closeOk = false ∨ w.chmodOk = false) :
    (∀ pid, Event.started pid ∉ (startScript d s w).events) ∧
    (∀ e ∈ (startScript d s w).events, e.onRegistry = false) ∧
    (startScript d s w).storage = s ∧
    updatesOf (startScript d s w).events = [] := by
  have hns : ∀ pid, Event.started pid ∉ (startScript d s w).events := by
    intro pid hp
    obtain ⟨name, hf, hc, hm, -⟩ := (started_iff d s w pid).mp hp
    rcases h with h | h | h
    · rw [hf] at h; cases h
    · rw [hc] at h; cases h
    · rw [hm] at h; cases h
  obtain ⟨hsto, hloc⟩ := startScript_local d s w hns
  refine ⟨hns, fun e he => local_onRegistry e (hloc e he), hsto, ?_⟩
  have : ∀ es : List Event, (∀ e ∈ es, e.isLocal = true) → updatesOf es = [] := by
    intro es
    induction es with
    | nil => intro _; rfl
    | cons e es ih =>
      intro hes
      have he := hes e (List.mem_cons_self _ _)
      have ih2 := ih (fun x hx => hes x (List.mem_cons_of_mem _ hx))
      cases e <;> first | exact ih2 | cases he
  exact this _ hloc

/-- C5, at the failing input. The write of the script fails (`worldWriteFails`), the
error is logged, and `startScript` goes on: the child process 4242 is started, the entry
`abc -> 4242` is put in the registry and updates are sent. -/
theorem startScript_write_failure_proceeds :
    worldWriteFails.writeOk = false ∧
    Event.log Level.error Msg.writeTmpFailed ∈
      (startScript reqStart jobStorage.empty worldWriteFails).events ∧
    Event.started 4242 ∈ (startScript reqStart jobStorage.empty worldWriteFails).events ∧
    Event.regSet "abc" 4242 ∈ (startScript reqStart jobStorage.empty worldWriteFails).events ∧
    updatesOf (startScript reqStart jobStorage.empty worldWriteFails).events =
      [V1Update.output "stdout" [104, 105, 10], V1Update.exit 0] := by
  decide

/-- C6, at the failing input. `ioutil.TempFile` fails (`worldCreateFails`): `dispatch`
logs the error and then ends with a panic, it does not return to its caller. -/
theorem dispatch_create_failure_panics :
    worldCreateFails.tempFile = none ∧
    (dispatch reqStart jobStorage.empty worldCreateFails).events =
      [Event.log Level.trace Msg.runningScript, Event.log Level.error Msg.createTmpFailed] ∧
    (dispatch reqStart jobStorage.empty worldCreateFails).outcome = Outcome.panicked ∧
    (dispatch reqStart jobStorage.empty worldCreateFails).outcome ≠ Outcome.returned := by
  decide

/-- C7, at the failing inputs. The temporary file was made and its close
(`worldCloseFails`) or its chmod (`worldChmodFails`) fails: the run ends in `log.Fatal`
and the file is not removed. -/
theorem startScript_fatal_keeps_file :
    (Event.tempCreated "/tmp/ygg_rex1" ∈
        (startScript reqStart jobStorage.empty worldCloseFails).events ∧
      (startScript reqStart jobStorage.empty worldCloseFails).outcome = Outcome.fatal ∧
      Event.fileRemoved "/tmp/ygg_rex1" ∉
        (startScript reqStart jobStorage.empty worldCloseFails).events) ∧
    (Event.tempCreated "/tmp/ygg_rex1" ∈
        (startScript reqStart jobStorage.empty worldChmodFails).events ∧
      (startScript reqStart jobStorage.empty worldChmodFails).outcome = Outcome.fatal ∧
      Event.fileRemoved "/tmp/ygg_rex1" ∉
        (startScript reqStart jobStorage.empty worldChmodFails).events) := by
  decide

theorem launch_file_removal (j : Option String) (name : String) (s : jobStorage) (w : World) :
    ((launch j name s w).outcome = Outcome.returned →
      Event.fileRemoved name ∈ (launch j name s w).events) ∧
    ((launch j name s w).outcome = Outcome.fatal →
      Event.fileRemoved name ∉ (launch j name s w).events) := by
  unfold launch
  cases hc : w.closeOk
  · simp
  cases hm : w.chmodOk
  · simp
  cases ho : w.stdoutPipeOk
  · simp
  cases he : w.stderrPipeOk
  · simp
  cases hs : w.start with
  | none => simp
  | some pid =>
    cases hb : bothFinished w
    · simp [runStarted_blocked j name pid s w hb]
    · simp [runStarted_finished j name pid s w hb]

/-- When the temporary file was made: if `startScript` returns, the file has been
removed; if it ends in `log.Fatal`, the file has not been removed. -/
theorem startScript_file_removal (d : Data) (s : jobStorage) (w : World) (name : String)
    (hf : w.tempFile = some name) :
    ((startScript d s w).outcome = Outcome.returned →
      Event.fileRemoved name ∈ (startScript d s w).events) ∧
    ((startScript d s w).outcome = Outcome.fatal →
      Event.fileRemoved name ∉ (startScript d s w).events) := by
  have hl := launch_file_removal (d.get "job_uuid") name s w
  unfold startScript
  simp only [hf]
  refine ⟨fun h => ?_, fun h => ?_⟩
  · have := hl.1 h
    simp [this]
  · have := hl.2 h
    cases (d.get "job_uuid").isNone <;> cases w.writeOk <;> simp [this]

/-! ### Two runs with the same job id -/

theorem Interleaving.append {α : Type} {x1 y1 z1 x2 y2 z2 : List α}
    (h1 : Interleaving x1 y1 z1) (h2 : Interleaving x2 y2 z2) :
    Interleaving (x1 ++ x2) (y1 ++ y2) (z1 ++ z2) := by
  induction h1 with
  | nil => simpa using h2
  | left x _ ih => exact Interleaving.left x ih
  | right y _ ih => exact Interleaving.right y ih

/-- With a job id, the first effect of lines 84-114 is `Set(id, pid)`, and no later
effect of a run that does not end is `Remove(id)` or the return of `cmd.Wait()`. -/
theorem runStarted_head (id : String) (name : String) (pid : Int) (s : jobStorage) (w : World) :
    ∃ rest, (runStarted (some id) name pid s w).events = Event.regSet id pid :: rest := by
  cases hb : bothFinished w
  · rw [runStarted_blocked (some id) name pid s w hb]
    exact ⟨_, rfl⟩
  · rw [runStarted_finished (some id) name pid s w hb]
    exact ⟨_, rfl⟩

theorem staging_not_mem (es : List Event) (hes : ∀ e ∈ es, e.isStaging = true) (e : Event)
    (he : e.isStaging = false) : e ∉ es := by
  intro hmem
  rw [hes e hmem] at he
  cases he

/-- C10. Deregistration is keyed by the job id alone. Take two runs of `startScript`
with the same job id `id`, whose processes start with pids `p1` and `p2`, the
collectors of the first run ending. Their effects can be interleaved as: the first run
up to its `Set(id, p1)`, the second run up to its `Set(id, p2)`, the rest of the first
run, the rest of the second run. After the two registrations the registry maps `id` to
`p2` only. The first run then returns, its `Remove(id)` among its last effects, while
the second process has been started and not waited for, and the registry has no entry
for `id`: a `cancel` for `id` at that point logs the unknown job, sends no signal to
`p2` and returns. -/
theorem deregistration_by_id_alone (d1 d2 dc : Data) (s : jobStorage) (w1 w2 wc : World)
    (id : String) (p1 p2 : Int)
    (h1 : d1.get "job_uuid" = some id) (h2 : d2.get "job_uuid" = some id)
    (hc : dc.get "job_uuid" = some id)
    (hs1 : Event.started p1 ∈ (startScript d1 s w1).events)
    (hs2 : Event.started p2 ∈ (startScript d2 s w2).events)
    (hb1 : bothFinished w1 = true) :
    ∃ a1 b1 a2 b2,
      (startScript d1 s w1).events = a1 ++ b1 ∧
      (startScript d2 s w2).events = a2 ++ b2 ∧
      Interleaving (startScript d1 s w1).events (startScript d2 s w2).events
        (a1 ++ a2 ++ b1 ++ b2) ∧
      Event.regSet id p1 ∈ a1 ∧ Event.regSet id p2 ∈ a2 ∧
      (s.replay (a1 ++ a2)).Get id = some p2 ∧
      (startScript d1 s w1).outcome = Outcome.returned ∧
      Event.regRemove id ∈ b1 ∧
      Event.started p2 ∈ a2 ∧ Event.waited ∉ a2 ∧ Event.regRemove id ∉ a2 ∧
      (s.replay (a1 ++ a2 ++ b1)).Get id = none ∧
      cancel dc (s.replay (a1 ++ a2 ++ b1)) wc =
        ⟨[Event.log Level.error Msg.unknownJob], Outcome.returned, s.replay (a1 ++ a2 ++ b1)⟩ ∧
      (∀ pid sig, Event.kill pid sig ∉ (cancel dc (s.replay (a1 ++ a2 ++ b1)) wc).events) := by
  obtain ⟨n1, hf1, hc1, hm1, ho1, he1, hst1⟩ := (started_iff d1 s w1 p1).mp hs1
  obtain ⟨n2, hf2, hc2, hm2, ho2, he2, hst2⟩ := (started_iff d2 s w2 p2).mp hs2
  obtain ⟨pre1, hpre1, hev1, hout1, -⟩ :=
    startScript_started_shape d1 s w1 n1 p1 hf1 hc1 hm1 ho1 he1 hst1
  obtain ⟨pre2, hpre2, hev2, -, -⟩ :=
    startScript_started_shape d2 s w2 n2 p2 hf2 hc2 hm2 ho2 he2 hst2
  rw [h1] at hev1 hout1
  rw [h2] at hev2
  rw [runStarted_finished (some id) n1 p1 s w1 hb1] at hev1 hout1
  obtain ⟨rest2, hrest2⟩ := runStarted_head id n2 p2 s w2
  rw [hrest2] at hev2
  have hmid : ∀ e ∈ collected w1 ++ [Event.collectorsDone, Event.waited] ++ exitEvents w1.wait
      ++ [Event.chanClosed], e.onRegistry = false := by
    intro e hmem
    simp only [List.mem_append, List.mem_cons, List.mem_singleton, List.not_mem_nil,
      or_false] at hmem
    rcases hmem with ((hmem | hmem | hmem) | hmem) | hmem
    · exact collected_onRegistry w1 e hmem
    · subst hmem; rfl
    · subst hmem; rfl
    · exact exitEvents_onRegistry w1.wait e hmem
    · subst hmem; rfl
  have hA : ∀ (pre : List Event) (p : Int) (t : jobStorage),
      (∀ e ∈ pre, e.isStaging = true) →
      t.replay (pre ++ [Event.started p, Event.log Level.info Msg.startedProcess,
        Event.regSet id p]) = t.Set id p := by
    intro pre p t hpre
    rw [replay_append, replay_of_no_registry pre t (staging_onRegistry pre hpre)]
    rfl
  have hreg2 : s.replay ((pre1 ++ [Event.started p1, Event.log Level.info Msg.startedProcess,
      Event.regSet id p1]) ++ (pre2 ++ [Event.started p2,
      Event.log Level.info Msg.startedProcess, Event.regSet id p2]))
      = (s.Set id p1).Set id p2 := by
    rw [replay_append, hA pre1 p1 s hpre1, hA pre2 p2 _ hpre2]
  have hreg3 : s.replay ((pre1 ++ [Event.started p1, Event.log Level.info Msg.startedProcess,
      Event.regSet id p1]) ++ (pre2 ++ [Event.started p2,
      Event.log Level.info Msg.startedProcess, Event.regSet id p2]) ++
      ((collected w1 ++ [Event.collectorsDone, Event.waited] ++ exitEvents w1.wait
        ++ [Event.chanClosed]) ++ [Event.regRemove id, Event.fileRemoved n1]))
      = ((s.Set id p1).Set id p2).Remove id := by
    rw [replay_append, hreg2, replay_append, replay_of_no_registry _ _ hmid]
    rfl
  have hget3 : (((s.Set id p1).Set id p2).Remove id).Get id = none := by
    simp [jobStorage.Remove, jobStorage.Get]
  refine ⟨pre1 ++ [Event.started p1, Event.log Level.info Msg.startedProcess,
      Event.regSet id p1],
    (collected w1 ++ [Event.collectorsDone, Event.waited] ++ exitEvents w1.wait
      ++ [Event.chanClosed]) ++ [Event.regRemove id, Event.fileRemoved n1],
    pre2 ++ [Event.started p2, Event.log Level.info Msg.startedProcess, Event.regSet id p2],
    rest2, ?_, ?_, ?_, ?_, ?_, ?_, hout1, ?_, ?_, ?_, ?_, ?_, ?_, ?_⟩
  · rw [hev1]
    simp
  · rw [hev2]
    simp
  · have e1 : (startScript d1 s w1).events = (pre1 ++ [Event.started p1,
        Event.log Level.info Msg.startedProcess, Event.regSet id p1]) ++
        ((collected w1 ++ [Event.collectorsDone, Event.waited] ++ exitEvents w1.wait
          ++ [Event.chanClosed]) ++ [Event.regRemove id, Event.fileRemoved n1]) := by
      rw [hev1]
      simp
    have e2 : (startScript d2 s w2).events = (pre2 ++ [Event.started p2,
        Event.log Level.info Msg.startedProcess, Event.regSet id p2]) ++ rest2 := by
      rw [hev2]
      simp
    rw [e1, e2]
    have i1 := Interleaving.append
      (Interleaving.append_both (pre1 ++ [Event.started p1,
        Event.log Level.info Msg.startedProcess, Event.regSet id p1])
        (pre2 ++ [Event.started p2, Event.log Level.info Msg.startedProcess,
          Event.regSet id p2]))
      (Interleaving.append_both
        ((collected w1 ++ [Event.collectorsDone, Event.waited] ++ exitEvents w1.wait
          ++ [Event.chanClosed]) ++ [Event.regRemove id, Event.fileRemoved n1]) rest2)
    simpa [List.append_assoc] using i1
  · simp
  · simp
  · rw [hreg2]
    simp [jobStorage.Set, jobStorage.Get]
  · simp
  · simp
  · have := staging_not_mem pre2 hpre2 Event.waited rfl
    simp [this]
  · have := staging_not_mem pre2 hpre2 (Event.regRemove id) rfl
    simp [this]
  · rw [hreg3]
    exact hget3
  · rw [hreg3]
    exact cancel_unknown dc _ wc id hc hget3
  · intro pid sig
    rw [hreg3, cancel_unknown dc _ wc id hc hget3]
    simp

/-! ### The theorems at concrete inputs -/

/-- The channel of the run of `reqStart` in `worldOk`, in which the process 4242 is
started (C1 at a concrete input). -/
theorem startScript_channel_witness :
    Event.started 4242 ∈ (startScript reqStart jobStorage.empty worldOk).events ∧
    ∃ merged : List V1Update,
      Interleaving (updatesOf (outputCollector "stdout" worldOk.stdout).events)
        (updatesOf (outputCollector "stderr" worldOk.stderr).events) merged ∧
      (∀ u ∈ merged, ∃ stream content, u = V1Update.output stream content) ∧
      (bothFinished worldOk = false →
        (startScript reqStart jobStorage.empty worldOk).events.filter Event.onChannel =
          merged.map Event.send) ∧
      (bothFinished worldOk = true →
        (worldOk.wait = WaitResult.ok →
          (startScript reqStart jobStorage.empty worldOk).events.filter Event.onChannel =
            merged.map Event.send ++ [Event.send (V1Update.exit 0), Event.chanClosed]) ∧
        (∀ status, worldOk.wait = WaitResult.exitError (some status) →
          (startScript reqStart jobStorage.empty worldOk).events.filter Event.onChannel =
            merged.map Event.send ++
              [Event.send (V1Update.exit status.ExitStatus), Event.chanClosed]) ∧
        (∀ c : Nat, c ≤ 255 → worldOk.wait = waitOfExitCode c →
          (startScript reqStart jobStorage.empty worldOk).events.filter Event.onChannel =
            merged.map Event.send ++ [Event.send (V1Update.exit (c : Int)), Event.chanClosed]) ∧
        (worldOk.wait = WaitResult.exitError none ∨ worldOk.wait = WaitResult.otherError →
          (startScript reqStart jobStorage.empty worldOk).events.filter Event.onChannel =
            merged.map Event.send ++ [Event.chanClosed])) :=
  ⟨by decide, startScript_channel reqStart jobStorage.empty worldOk 4242 (by decide)⟩

/-- The collector of "stdout" on a read of three bytes followed by the end of the stream
(C2 at a concrete input). -/
theorem outputCollector_spec_witness :
    (∀ r ∈ readsHi, r.err = none) ∧
    readEof.err ≠ none ∧
    (outputCollector "stdout" (readsHi ++ readEof :: [])).finished = true ∧
    (outputCollector "stdout" (readsHi ++ readEof :: [])).events.filter Event.onChannel =
      ((readsHi ++ [readEof]).filter (fun r => decide (0 < r.n))).map
        (fun r => Event.send (V1Update.output "stdout" r.data)) ∧
    Event.chanClosed ∉ (outputCollector "stdout" (readsHi ++ readEof :: [])).events ∧
    updatesOf (outputCollector "stdout" (readsHi ++ readEof :: [])).events =
      ((readsHi ++ [readEof]).filter (fun r => decide (0 < r.n))).map
        (fun r => V1Update.output "stdout" r.data) ∧
    ((updatesOf (outputCollector "stdout" (readsHi ++ readEof :: [])).events).map
        V1Update.bytes).flatten
      = ((readsHi ++ [readEof]).map ReadResult.data).flatten ∧
    (∀ u ∈ updatesOf (outputCollector "stdout" (readsHi ++ readEof :: [])).events,
      ∃ content, u = V1Update.output "stdout" content ∧ 1 ≤ content.length) ∧
    (∀ u ∈ updatesOf (outputCollector "stdout" (readsHi ++ readEof :: [])).events,
      u.bytes.length ≤ 4096) ∧
    ((∀ r ∈ readsHi ++ [readEof], r.n = 0) →
      updatesOf (outputCollector "stdout" (readsHi ++ readEof :: [])).events = []) :=
  ⟨by decide, by decide,
    outputCollector_spec "stdout" readsHi readEof [] (by decide) (by decide)⟩

/-- The registration of the run of `reqStart`, job id "abc", in `worldOk`, process 4242
(C9 at a concrete input). -/
theorem startScript_registration_witness :
    reqStart.get "job_uuid" = some "abc" ∧
    Event.started 4242 ∈ (startScript reqStart jobStorage.empty worldOk).events ∧
    ∃ name pre, worldOk.tempFile = some name ∧ (∀ e ∈ pre, e.onRegistry = false) ∧
      (∀ e ∈ collected worldOk ++ [Event.collectorsDone, Event.waited]
        ++ exitEvents worldOk.wait ++ [Event.chanClosed], e.onRegistry = false) ∧
      (bothFinished worldOk = true →
        (startScript reqStart jobStorage.empty worldOk).events =
          pre ++ [Event.started 4242, Event.log Level.info Msg.startedProcess,
            Event.regSet "abc" 4242]
          ++ (collected worldOk ++ [Event.collectorsDone, Event.waited]
            ++ exitEvents worldOk.wait ++ [Event.chanClosed])
          ++ [Event.regRemove "abc", Event.fileRemoved name] ∧
        (startScript reqStart jobStorage.empty worldOk).outcome = Outcome.returned ∧
        (startScript reqStart jobStorage.empty worldOk).storage.Get "abc" = none ∧
        (startScript reqStart jobStorage.empty worldOk).events.count
          (Event.regRemove "abc") = 1) ∧
      (bothFinished worldOk = false →
        (startScript reqStart jobStorage.empty worldOk).events =
          pre ++ [Event.started 4242, Event.log Level.info Msg.startedProcess,
            Event.regSet "abc" 4242] ++ collected worldOk ∧
        (startScript reqStart jobStorage.empty worldOk).outcome = Outcome.blocked ∧
        (startScript reqStart jobStorage.empty worldOk).storage.Get "abc" = some 4242 ∧
        Event.regRemove "abc" ∉ (startScript reqStart jobStorage.empty worldOk).events) ∧
      (∀ k, k ≠ "abc" →
        (startScript reqStart jobStorage.empty worldOk).storage.Get k = jobStorage.empty.Get k) ∧
      (startScript reqStart jobStorage.empty worldOk).storage =
        jobStorage.empty.replay (startScript reqStart jobStorage.empty worldOk).events ∧
      (∀ es1 es2, (startScript reqStart jobStorage.empty worldOk).events = es1 ++ es2 →
        Event.regSet "abc" 4242 ∈ es1 → Event.regRemove "abc" ∉ es1 →
        (jobStorage.empty.replay es1).Get "abc" = some 4242 ∧
          ∀ k, k ≠ "abc" → (jobStorage.empty.replay es1).Get k = jobStorage.empty.Get k) :=
  ⟨by decide, by decide,
    startScript_registration reqStart jobStorage.empty worldOk "abc" 4242 (by decide)
      (by decide)⟩

/-- Two runs of `reqStart`, job id "abc", with the processes 4242 and 4343, and a
`cancel` for "abc" (C10 at a concrete input). -/
theorem deregistration_by_id_alone_witness :
    reqStart.get "job_uuid" = some "abc" ∧
    reqCancel.get "job_uuid" = some "abc" ∧
    Event.started 4242 ∈ (startScript reqStart jobStorage.empty worldOk).events ∧
    Event.started 4343 ∈ (startScript reqStart jobStorage.empty worldOk2).events ∧
    bothFinished worldOk = true ∧
    ∃ a1 b1 a2 b2,
      (startScript reqStart jobStorage.empty worldOk).events = a1 ++ b1 ∧
      (startScript reqStart jobStorage.empty worldOk2).events = a2 ++ b2 ∧
      Interleaving (startScript reqStart jobStorage.empty worldOk).events
        (startScript reqStart jobStorage.empty worldOk2).events (a1 ++ a2 ++ b1 ++ b2) ∧
      Event.regSet "abc" 4242 ∈ a1 ∧ Event.regSet "abc" 4343 ∈ a2 ∧
      (jobStorage.empty.replay (a1 ++ a2)).Get "abc" = some 4343 ∧
      (startScript reqStart jobStorage.empty worldOk).outcome = Outcome.returned ∧
      Event.regRemove "abc" ∈ b1 ∧
      Event.started 4343 ∈ a2 ∧ Event.waited ∉ a2 ∧ Event.regRemove "abc" ∉ a2 ∧
      (jobStorage.empty.replay (a1 ++ a2 ++ b1)).Get "abc" = none ∧
      cancel reqCancel (jobStorage.empty.replay (a1 ++ a2 ++ b1)) worldOk =
        ⟨[Event.log Level.error Msg.unknownJob], Outcome.returned,
          jobStorage.empty.replay (a1 ++ a2 ++ b1)⟩ ∧
      (∀ pid sig, Event.kill pid sig ∉
        (cancel reqCancel (jobStorage.empty.replay (a1 ++ a2 ++ b1)) worldOk).events) :=
  ⟨by decide, by decide, by decide, by decide, by decide,
    deregistration_by_id_alone reqStart reqStart reqCancel jobStorage.empty worldOk worldOk2
      worldOk "abc" 4242 4343 (by decide) (by decide) (by decide) (by decide) (by decide)
      (by decide)⟩

end Runner
